import Mathlib

/-!
Verification development for the eBay auction sniper dashboard.

The repository is a React single-page app (`src/src/App.tsx`) backed by an
extraction service (`EbayService`, in the unnamed service files).  Auction
amounts are JavaScript numbers used only through comparisons, `Math.min`,
addition of 1 and `parseFloat`, so they are modelled as rationals (ℚ);
timestamps (`Date.now()`, `Date.getTime()`) are millisecond counts modelled
as integers.  Host primitives that the code merely consumes — the network
fetch/scrape transport, `Math.random()`, the wall clock — enter the model
as explicit arguments (an `Except`/`Option` outcome, a rational draw, an
integer `now`).
-/

/-- Lifecycle status of a tracked auction (`Auction.status` in App.tsx). -/
inductive AuctionStatus
  | monitoring
  | bidding
  | won
  | lost
  | error
  deriving DecidableEq, Repr

/-- A bid attempt record (`interface BidRecord` in App.tsx). -/
structure BidRecord where
  id : String
  auctionId : String
  amount : ℚ
  timestamp : Int
  success : Bool
  reason : Option String
  deriving DecidableEq, Repr

/-- A tracked auction (`interface Auction` in App.tsx). -/
structure Auction where
  id : String
  url : String
  title : String
  currentBid : ℚ
  maxBid : ℚ
  endTime : Int
  isActive : Bool
  status : AuctionStatus
  lastBidAmount : Option ℚ
  bidHistory : List BidRecord
  itemId : String
  imageUrl : Option String
  seller : Option String
  bidCount : Option Int
  condition : Option String
  location : Option String
  shipping : Option String
  lastUpdated : Int
  deriving DecidableEq, Repr

/-- The two pieces of App state the claims are about: the `auctions` and
`bidHistory` `useState` cells of the `App` component. -/
structure AppState where
  auctions : List Auction
  bidHistory : List BidRecord
  deriving DecidableEq, Repr

/-- Auction data produced by the extraction service
(`interface EbayAuctionData` in the service files). -/
structure EbayAuctionData where
  title : String
  currentBid : ℚ
  endTime : Int
  itemId : String
  imageUrl : Option String
  seller : Option String
  bidCount : Option Int
  condition : Option String
  location : Option String
  shipping : Option String
  deriving DecidableEq, Repr

/-- Does `sub` occur as a contiguous run inside `l`? -/
def containsCharRun (sub : List Char) : List Char → Bool
  | [] => sub.isEmpty
  | c :: cs => sub.isPrefixOf (c :: cs) || containsCharRun sub cs

/-- Substring test, JavaScript `String.prototype.includes`. -/
def containsSubstr (s sub : String) : Bool :=
  containsCharRun sub.toList s.toList

/-- Numeric value of a decimal digit character. -/
def digitVal (c : Char) : Nat :=
  c.toNat - '0'.toNat

/-- Consume leading decimal digits, returning the accumulated value, the
number of digits consumed, and the rest of the characters. -/
def readDigits : List Char → Nat → Nat → Nat × Nat × List Char
  | [], acc, cnt => (acc, cnt, [])
  | c :: cs, acc, cnt =>
    if c.isDigit then readDigits cs (10 * acc + digitVal c) (cnt + 1)
    else (acc, cnt, c :: cs)

/-- Models JavaScript `parseFloat` on the inputs this codebase feeds it:
optional leading whitespace and sign, then a run of digits with an optional
decimal point, parsed as a prefix of the string; `none` models `NaN` (no
digit consumed).  Exponent notation and `Infinity`, which the app's inputs
(user-typed bid amounts and the digit/comma/dot captures of the price
regexes) never take, are not modelled. -/
def parseFloat (s : String) : Option ℚ :=
  let cs := s.toList.dropWhile (fun c => c.isWhitespace)
  let signed : Bool × List Char :=
    match cs with
    | '-' :: rest => (true, rest)
    | '+' :: rest => (false, rest)
    | _ => (false, cs)
  let ipart := readDigits signed.2 0 0
  let fpart : Nat × Nat :=
    match ipart.2.2 with
    | '.' :: rest =>
      let f := readDigits rest 0 0
      (f.1, f.2.1)
    | _ => (0, 0)
  if ipart.2.1 = 0 ∧ fpart.2 = 0 then none
  else
    let mag : ℚ := (ipart.1 : ℚ) + (fpart.1 : ℚ) / ((10 : ℚ) ^ fpart.2)
    some (if signed.1 then -mag else mag)

/-- JavaScript `String.prototype.trim`: strip leading and trailing
whitespace. -/
def jsTrim (s : String) : String :=
  String.mk (((s.toList.dropWhile Char.isWhitespace).reverse.dropWhile
    Char.isWhitespace).reverse)

/-- Models `priceStr.replace(/,/g, '')`: replacing every comma by the empty
string just drops all commas. -/
def removeCommas (s : String) : String :=
  String.mk (s.toList.filter fun c => !(c = ','))

/-- JavaScript `String.prototype.toLowerCase` on the ASCII text the line
scan handles: lower every character. -/
def jsToLower (s : String) : String :=
  String.mk (s.toList.map Char.toLower)

/-- Worker for `splitLines`: cut at every newline, keeping empty pieces. -/
def splitLinesAux : List Char → List Char → List String
  | [], acc => [String.mk acc.reverse]
  | c :: cs, acc =>
    if c = '\n' then String.mk acc.reverse :: splitLinesAux cs []
    else splitLinesAux cs (c :: acc)

/-- JavaScript `markdown.split('\n')`: the list of lines, where the empty
string yields `[""]`. -/
def splitLines (s : String) : List String :=
  splitLinesAux s.toList []

/-- Result of `calculateTimeRemaining` in App.tsx. -/
structure TimeRemaining where
  hours : Int
  minutes : Int
  seconds : Int
  total : Int
  deriving DecidableEq, Repr

/-- Function `calculateTimeRemaining` (App.tsx lines 282-293).  `now` is the clock
reading (`new Date().getTime()`), `endTime` the auction end timestamp; both
in milliseconds.  `Math.floor` on the nonnegative quotients is integer
division. -/
def calculateTimeRemaining (now endTime : Int) : TimeRemaining :=
  let diff := endTime - now
  if diff ≤ 0 then ⟨0, 0, 0, 0⟩
  else
    ⟨diff / (1000 * 60 * 60),
     (diff % (1000 * 60 * 60)) / (1000 * 60),
     (diff % (1000 * 60)) / 1000,
     diff⟩

/-- The failed record built in `attemptBid`'s rejection branch
(App.tsx lines 300-307).  `now` plays `Date.now()`, which is also the
source of the record id. -/
def attemptBidRejectRecord (auction : Auction) (bidAmount : ℚ) (now : Int) :
    BidRecord :=
  { id := toString now
    auctionId := auction.id
    amount := bidAmount
    timestamp := now
    success := false
    reason := some ("Bid amount ($" ++ toString bidAmount
      ++ ") exceeds max bid ($" ++ toString auction.maxBid ++ ")") }

/-- The record built when `attemptBid` places a simulated bid
(App.tsx lines 325-334).  `rand` is the `Math.random()` draw; the bid
succeeds when `rand > 0.3`. -/
def attemptBidRecord (auction : Auction) (bidAmount : ℚ) (now : Int)
    (rand : ℚ) : BidRecord :=
  let safeBidAmount := min bidAmount auction.maxBid
  let success := decide (rand > 3 / 10)
  { id := toString now
    auctionId := auction.id
    amount := safeBidAmount
    timestamp := now
    success := success
    reason := if success then none else some "Outbid by another user" }

/-- Function `attemptBid` (App.tsx lines 295-359): clamps the requested amount to
the auction's max bid, records the attempt in the global bid history and in
the auction's own history, and marks the auction won or lost according to
the simulated coin flip. -/
def attemptBid (st : AppState) (auction : Auction) (bidAmount : ℚ)
    (now : Int) (rand : ℚ) : AppState :=
  let safeBidAmount := min bidAmount auction.maxBid
  if safeBidAmount > auction.maxBid then
    let failedBid := attemptBidRejectRecord auction bidAmount now
    { bidHistory := st.bidHistory ++ [failedBid]
      auctions := st.auctions.map fun a =>
        if a.id = auction.id then
          { a with status := .error, bidHistory := a.bidHistory ++ [failedBid] }
        else a }
  else
    let bidRecord := attemptBidRecord auction bidAmount now rand
    { bidHistory := st.bidHistory ++ [bidRecord]
      auctions := st.auctions.map fun a =>
        if a.id = auction.id then
          { a with
              lastBidAmount := some safeBidAmount
              bidHistory := a.bidHistory ++ [bidRecord]
              status := if bidRecord.success then .won else .lost
              isActive := false }
        else a }

/-- The failed record built by the auto-snipe effect when the max bid
cannot compete (App.tsx lines 406-413). -/
def snipeFailedRecord (auction : Auction) (now : Int) : BidRecord :=
  { id := toString now
    auctionId := auction.id
    amount := 0
    timestamp := now
    success := false
    reason := some ("Max bid ($" ++ toString auction.maxBid
      ++ ") is lower than current bid ($" ++ toString auction.currentBid ++ ")") }

/-- Outcome of one auto-snipe tick for one auction: the auction returned by
the `setAuctions` map, the `attemptBid` call scheduled via `setTimeout`
(which captures the ORIGINAL auction object and the computed amount), and
the failed record pushed to the global bid history, if any. -/
structure SnipeResult where
  auction : Auction
  fired : Option (Auction × ℚ)
  failed : Option BidRecord
  deriving DecidableEq, Repr

/-- Body of the auto-snipe interval's `setAuctions(prev => prev.map(...))`
for a single auction (App.tsx lines 383-432).  The near-end branch
(remaining time in (3000, 300000]) only triggers an external data refresh
and returns the auction unchanged, so it needs no case of its own. -/
def snipeStepAuction (now : Int) (a : Auction) : SnipeResult :=
  if a.isActive = false ∨ a.status ≠ AuctionStatus.monitoring then
    ⟨a, none, none⟩
  else
    let timeRemaining := calculateTimeRemaining now a.endTime
    if timeRemaining.total ≤ 3000 ∧ timeRemaining.total > 0 then
      let optimalBid := min (a.currentBid + 1) a.maxBid
      if optimalBid ≤ a.maxBid then
        ⟨{ a with status := .bidding }, some (a, optimalBid), none⟩
      else
        let failedBid := snipeFailedRecord a now
        ⟨{ a with
            status := .error
            isActive := false
            bidHistory := a.bidHistory ++ [failedBid] },
         none, some failedBid⟩
    else if timeRemaining.total ≤ 0 then
      ⟨{ a with status := .lost, isActive := false }, none, none⟩
    else
      ⟨a, none, none⟩

/-- One whole auto-snipe interval tick over the app state: maps every
auction through `snipeStepAuction`, appends the failed records to the
global history, and returns the list of scheduled `attemptBid` calls. -/
def snipeTick (now : Int) (st : AppState) :
    AppState × List (Auction × ℚ) :=
  let results := st.auctions.map (snipeStepAuction now)
  (⟨results.map (·.auction),
    st.bidHistory ++ results.filterMap (·.failed)⟩,
   results.filterMap (·.fired))

/-- The auction record appended by a successful `addAuction`
(App.tsx lines 206-224). -/
def mkNewAuction (url : String) (data : EbayAuctionData)
    (maxBidAmount : ℚ) (now : Int) : Auction :=
  { id := toString now
    url := url
    title := data.title
    currentBid := data.currentBid
    maxBid := maxBidAmount
    endTime := data.endTime
    isActive := true
    status := .monitoring
    lastBidAmount := none
    bidHistory := []
    itemId := data.itemId
    imageUrl := data.imageUrl
    seller := data.seller
    bidCount := data.bidCount
    condition := data.condition
    location := data.location
    shipping := data.shipping
    lastUpdated := now }

/-- Function `addAuction` (App.tsx lines 171-272).  The `extractAuctionData` call is
asynchronous network work; its outcome is passed in as `extractResult`
(`.error` models a thrown exception, caught by the surrounding
`try`/`catch` which only shows a toast).  Blank inputs, an unparsable or
nonpositive max bid, extraction failure, and a max bid not above the
current bid all leave the state untouched. -/
def addAuction (st : AppState) (newAuctionUrl newMaxBid : String)
    (extractResult : Except String EbayAuctionData) (now : Int) : AppState :=
  if jsTrim newAuctionUrl = "" ∨ jsTrim newMaxBid = "" then st
  else
    match parseFloat newMaxBid with
    | none => st
    | some maxBidAmount =>
      if maxBidAmount ≤ 0 then st
      else
        match extractResult with
        | .error _ => st
        | .ok auctionData =>
          if maxBidAmount ≤ auctionData.currentBid then st
          else
            { st with auctions :=
                st.auctions ++ [mkNewAuction newAuctionUrl auctionData maxBidAmount now] }

/-!
The extraction service (`EbayService`).  The regular-expression engine is a
host primitive: the behaviour of `markdown.match(pattern)` for one pattern
is modelled as a function `String → Option String` giving the captured
group of the first match (none when the pattern does not match), and the
global all-matches scan of the last-resort stage as a `String → List String`
giving the full matches in order.  The algorithm around the matchers —
priority order, validity window, the line scan with its similar-items
state machine, the median, the last resort, and the strategy fallback
chain — is translated literally.
-/

/-- One JSON-LD item as consulted by `extractCurrentBid`: its `@type` and
its `offers?.price` (a string; `none` when the offers chain is absent).
In JavaScript the guard `item.offers?.price` is a truthiness test, so an
empty string is rejected but any other string passes. -/
structure JsonLdItem where
  atType : String
  offersPrice : Option String
  deriving DecidableEq, Repr

/-- The JSON-LD scan opening `extractCurrentBid` (service file, enhanced
version): first Product item whose price parses to a number `> 0` wins.
Note: this stage has no upper bound on the price. -/
def jsonLdPrice : List JsonLdItem → Option ℚ
  | [] => none
  | item :: rest =>
    if item.atType = "Product" ∧ item.offersPrice.getD "" ≠ "" then
      match parseFloat (item.offersPrice.getD "") with
      | some price => if price > 0 then some price else jsonLdPrice rest
      | none => jsonLdPrice rest
    else jsonLdPrice rest

/-- The validity window applied to every regex-extracted price:
`!isNaN(price) && price > 0 && price < 1000000`. -/
def isValidPrice (p : ℚ) : Bool :=
  decide (0 < p ∧ p < 1000000)

/-- Ways `extractCurrentBid` can throw: `typeError` models the TypeError
raised by `match[1].replace(/,/g, '')` when `match[1]` is `undefined`
(the final global-flagged pattern matching exactly once), `noPriceFound`
the deliberate `throw new Error('Unable to extract current bid/price
from auction. ...')` at the end. -/
inductive ExtractThrow
  | typeError
  | noPriceFound
  deriving DecidableEq, Repr

/-- What one NON-GLOBAL price pattern with a mandatory capture group
contributes on a text: `match[1]` is the group's capture, which has its
commas removed, is run through `parseFloat`, and is kept only when inside
the validity window.  This is the body of the per-line fallback loop,
whose two patterns `/US \$([0-9,]+\.?[0-9]*)/i` and
`/\$([0-9,]+\.?[0-9]*)/i` always bind group 1 when they match, so
`match[1]` can never be `undefined` there. -/
def patternPrice (text : String) (pat : String → Option String) : Option ℚ :=
  match pat text with
  | none => none
  | some cap =>
    match parseFloat (removeCommas cap) with
    | none => none
    | some price => if isValidPrice price then some price else none

/-- One iteration of the main pattern loop.  `markdown.match(pattern)` is
modelled as `String → Option (Option String)`: `none` when the match is
null, `some (some s)` when `match[1]` is the string `s` — the first
capture group for the ten non-global patterns, but the SECOND FULL MATCH
(a `$`-prefixed string, which parses to NaN) for the final global pattern
`/\$([0-9,]+\.?[0-9]*)/g`, whose `String.match` result is the list of
full matches — and `some none` when the array is non-null but `match[1]`
is `undefined` (the global pattern matching exactly once), in which case
`match[1].replace(/,/g, '')` throws a TypeError out of the whole
extraction.  `.ok (some p)` returns `p` from the loop; `.ok none` falls
through to the next pattern. -/
def mainPatternPrice (markdown : String)
    (pat : String → Option (Option String)) :
    Except ExtractThrow (Option ℚ) :=
  match pat markdown with
  | none => .ok none
  | some none => .error .typeError
  | some (some cap) =>
    match parseFloat (removeCommas cap) with
    | none => .ok none
    | some price =>
      if isValidPrice price then .ok (some price) else .ok none

/-- The main pattern loop of `extractCurrentBid`: patterns are tried in
their listed priority order; the first attempt yielding a valid price
returns it, an attempt whose `match[1]` is `undefined` aborts the whole
extraction with a TypeError, and anything else falls through to the next
pattern. -/
def tryPatterns (markdown : String) :
    List (String → Option (Option String)) → Except ExtractThrow (Option ℚ)
  | [] => .ok none
  | pat :: rest =>
    match mainPatternPrice markdown pat with
    | .error e => .error e
    | .ok (some price) => .ok (some price)
    | .ok none => tryPatterns markdown rest

/-- Lowercased-line test entering a similar-items section
(`extractCurrentBid` fallback loop). -/
def similarLine (low : String) : Bool :=
  containsSubstr low "similar" || containsSubstr low "related" ||
  containsSubstr low "people who viewed" || containsSubstr low "previous price" ||
  containsSubstr low "sponsored" || containsSubstr low "advertisement"

/-- Lowercased-line test returning to the main item section
(`extractCurrentBid` fallback loop). -/
def resetLine (low : String) : Bool :=
  containsSubstr low "item description" || containsSubstr low "condition:" ||
  containsSubstr low "seller information" || containsSubstr low "shipping:"

/-- Prices contributed by one line of the fallback scan: every per-line
pattern is tried and every valid price found is collected (so one line can
contribute more than one candidate). -/
def linePrices (linePats : List (String → Option String)) (line : String) :
    List ℚ :=
  linePats.filterMap (patternPrice line)

/-- The fallback line scan of `extractCurrentBid`: walks the lines keeping
an `inSimilarSection` flag; a similar-items marker line is skipped and sets
the flag, a main-section marker clears it, and prices are only collected
from lines outside similar-items sections. -/
def collectFallbackPrices (linePats : List (String → Option String)) :
    List String → Bool → List ℚ
  | [], _ => []
  | line :: rest, inSim =>
    let low := jsToLower line
    if similarLine low then collectFallbackPrices linePats rest true
    else
      let inSim2 := if resetLine low then false else inSim
      if inSim2 then collectFallbackPrices linePats rest inSim2
      else linePrices linePats line ++ collectFallbackPrices linePats rest inSim2

/-- Median selection of the fallback stage: the collected prices are
sorted ascending and the element at index `⌊length / 2⌋` is returned
(`foundPrices.sort((a, b) => a - b)` then `foundPrices[Math.floor(...)]`). -/
def medianPrice (ps : List ℚ) : ℚ :=
  (ps.insertionSort (· ≤ ·)).getD (ps.length / 2) 0

/-- Valid prices of the last-resort stage: each full match of the global
number scan is stripped of `$` and `,`, parsed, and kept when
`price > 0 && price < 1000000 && price >= 0.01`. -/
def lastResortPrices (tokens : List String) : List ℚ :=
  tokens.filterMap fun tok =>
    match parseFloat (String.mk (tok.toList.filter
        fun c => !(c = '$' || c = ','))) with
    | none => none
    | some price =>
      if 0 < price ∧ price < 1000000 ∧ 1 / 100 ≤ price then some price
      else none

/-- Last-resort pick: sort the valid prices ascending and take the first
in `[1, 10000]`, else the smallest (`validPrices.find(...) ||
validPrices[0]`); `none` when there is no valid price at all. -/
def lastResortPick (tokens : List String) : Option ℚ :=
  let validPrices := lastResortPrices tokens
  if validPrices.length = 0 then none
  else
    let sorted := validPrices.insertionSort (· ≤ ·)
    match sorted.find? (fun p => decide (1 ≤ p ∧ p ≤ 10000)) with
    | some p => some p
    | none => some (sorted.getD 0 0)

/-- Function `extractCurrentBid` (service file, enhanced version, lines
273-407): JSON-LD structured data first, then the prioritized pattern
list — which either returns a price, falls through, or aborts with a
TypeError —, then the median of the line-scan candidates, then the
last-resort number scan; `.error .noPriceFound` models the deliberate
final `throw`.  `pats` are the eleven main price patterns in their listed
order, `linePats` the two per-line fallback patterns, `allTokens` the
global number scan. -/
def extractCurrentBid (pats : List (String → Option (Option String)))
    (linePats : List (String → Option String))
    (allTokens : String → List String) (jsonLd : List JsonLdItem)
    (markdown : String) : Except ExtractThrow ℚ :=
  match jsonLdPrice jsonLd with
  | some price => .ok price
  | none =>
    match tryPatterns markdown pats with
    | .error e => .error e
    | .ok (some price) => .ok price
    | .ok none =>
      let foundPrices := collectFallbackPrices linePats (splitLines markdown) false
      if foundPrices.length > 0 then .ok (medianPrice foundPrices)
      else
        match lastResortPick (allTokens markdown) with
        | some price => .ok price
        | none => .error .noPriceFound

/-- Function `isValidEbayUrl` (service file): the URL must mention an eBay domain
and an item path. -/
def isValidEbayUrl (url : String) : Bool :=
  (["ebay.com", "ebay.co.uk", "ebay.de", "ebay.fr", "ebay.it", "ebay.es",
    "ebay.ca", "ebay.com.au"].any fun domain => containsSubstr url domain) &&
  (containsSubstr url "/itm/" || containsSubstr url "/p/")

/-- Outcomes of the fetch strategies of `extractAuctionData`, supplied by
the host transport.  `Except.error` models a rejected promise or a thrown
parse error; for the API and proxy helpers, which catch internally and
return `null`, the payload is an `Option`.  `altAttempts` lists the
outcomes of the four alternative-URL scrape attempts in order. -/
structure ExtractEnv where
  apiAttempt : Except String (Option EbayAuctionData)
  directAttempt : Except String EbayAuctionData
  altAttempts : List (Except String EbayAuctionData)
  proxyAttempt : Except String (Option EbayAuctionData)
  deriving Repr

/-- What method 1 of `extractAuctionData` yields: the API data when the
call succeeded and returned non-null, with any error caught and swallowed.
No validity condition is placed on the data itself. -/
def apiResult (env : ExtractEnv) : Option EbayAuctionData :=
  match env.apiAttempt with
  | .ok od => od
  | .error _ => none

/-- What method 4 yields, symmetric to `apiResult`. -/
def proxyResult (env : ExtractEnv) : Option EbayAuctionData :=
  match env.proxyAttempt with
  | .ok od => od
  | .error _ => none

/-- Acceptance test applied to a scrape attempt (methods 2 and 3): the
attempt must not have thrown, and the parsed data must have a positive
current bid and a title not marked Demo Mode. -/
def scrapeSuccess (att : Except String EbayAuctionData) :
    Option EbayAuctionData :=
  match att with
  | .error _ => none
  | .ok d =>
    if decide (0 < d.currentBid) && !containsSubstr d.title "Demo Mode" then
      some d
    else none

/-- Method 3 of `extractAuctionData`: the alternative URLs are scraped in
order and the first acceptable result wins; every failure is caught. -/
def tryAlternatives : List (Except String EbayAuctionData) →
    Option EbayAuctionData
  | [] => none
  | att :: rest =>
    match scrapeSuccess att with
    | some d => some d
    | none => tryAlternatives rest

/-- Function `extractAuctionData` (service file, enhanced version, lines 21-124):
validate the URL, then try the eBay API, the direct page scrape, the
alternative-URL scrapes and the proxy fetch in that fixed order, catching
each failure, and throw only when every strategy has failed. -/
def extractAuctionData (url : String) (env : ExtractEnv) :
    Except String EbayAuctionData :=
  if isValidEbayUrl url = false then
    .error "Please enter a valid eBay auction URL"
  else
    match apiResult env with
    | some d => .ok d
    | none =>
      match scrapeSuccess env.directAttempt with
      | some d => .ok d
      | none =>
        match tryAlternatives env.altAttempts with
        | some d => .ok d
        | none =>
          match proxyResult env with
          | some d => .ok d
          | none => .error "Unable to fetch real auction data from eBay."

/-! Helper lemmas about the App-side operations. -/

/-- The clamp `Math.min(bidAmount, auction.maxBid)` can never exceed the
max bid, so `attemptBid` always takes its placement branch and appends
exactly the placed record to the global history. -/
theorem attemptBid_bidHistory_eq (st : AppState) (a : Auction) (b : ℚ)
    (now : Int) (rand : ℚ) :
    (attemptBid st a b now rand).bidHistory
      = st.bidHistory ++ [attemptBidRecord a b now rand] := by
  simp only [attemptBid]
  rw [if_neg (not_lt.mpr (min_le_right b a.maxBid))]

/-- A skipped auction (inactive or not monitoring) passes through the
auto-snipe step untouched. -/
theorem snipeStep_skip (now : Int) (a : Auction)
    (h : a.isActive = false ∨ a.status ≠ AuctionStatus.monitoring) :
    snipeStepAuction now a = ⟨a, none, none⟩ := by
  simp only [snipeStepAuction]
  rw [if_pos h]

/-- In the three-second window the auto-snipe step always fires: the
clamped optimal bid passes the `optimalBid <= maxBid` guard. -/
theorem snipeStep_window (now : Int) (a : Auction)
    (hact : a.isActive = true) (hmon : a.status = AuctionStatus.monitoring)
    (hwin : (calculateTimeRemaining now a.endTime).total ≤ 3000 ∧
      (calculateTimeRemaining now a.endTime).total > 0) :
    snipeStepAuction now a =
      ⟨{ a with status := .bidding },
       some (a, min (a.currentBid + 1) a.maxBid), none⟩ := by
  simp only [snipeStepAuction]
  rw [if_neg (by simp [hact, hmon]), if_pos hwin,
    if_pos (min_le_right (a.currentBid + 1) a.maxBid)]

/-- An active monitoring auction whose recomputed remaining time is not
positive is marked lost and inactive by the auto-snipe step. -/
theorem snipeStep_expired (now : Int) (a : Auction)
    (hact : a.isActive = true) (hmon : a.status = AuctionStatus.monitoring)
    (hend : (calculateTimeRemaining now a.endTime).total ≤ 0) :
    snipeStepAuction now a =
      ⟨{ a with status := .lost, isActive := false }, none, none⟩ := by
  simp only [snipeStepAuction]
  rw [if_neg (by simp [hact, hmon]), if_neg (by omega), if_pos hend]

/-- An active monitoring auction more than three seconds from its end
passes through the auto-snipe step untouched. -/
theorem snipeStep_outside (now : Int) (a : Auction)
    (hact : a.isActive = true) (hmon : a.status = AuctionStatus.monitoring)
    (hfar : (calculateTimeRemaining now a.endTime).total > 3000) :
    snipeStepAuction now a = ⟨a, none, none⟩ := by
  simp only [snipeStepAuction]
  rw [if_neg (by simp [hact, hmon]), if_neg (by omega), if_neg (by omega)]

/-- The only scheduled bid the auto-snipe step can emit is the original
auction paired with the clamped optimal amount. -/
theorem snipeStep_fired_eq (now : Int) (a : Auction) (p : Auction × ℚ)
    (h : (snipeStepAuction now a).fired = some p) :
    p = (a, min (a.currentBid + 1) a.maxBid) := by
  simp only [snipeStepAuction] at h
  split at h
  · simp at h
  · split at h
    · split at h
      · exact (Option.some_inj.mp h).symm
      · simp at h
    · split at h <;> simp at h

/-- The only failed record the auto-snipe step can push to the global
history is the max-bid-too-low record for the original auction. -/
theorem snipeStep_failed_eq (now : Int) (a : Auction) (r : BidRecord)
    (h : (snipeStepAuction now a).failed = some r) :
    r = snipeFailedRecord a now := by
  simp only [snipeStepAuction] at h
  split at h
  · simp at h
  · split at h
    · split at h
      · simp at h
      · exact (Option.some_inj.mp h).symm
    · split at h <;> simp at h

/-- A bid record is well-formed when it carries a nonempty failure reason
exactly if it failed. -/
def reasonOk (r : BidRecord) : Prop :=
  (r.success = true → r.reason = none) ∧
  (r.success = false → ∃ s, r.reason = some s ∧ s ≠ "")

/-- A five-part concatenation with a nonempty first part is nonempty. -/
theorem reason_ne_empty (pre t1 mid t2 post : String)
    (hpre : 0 < pre.length) : pre ++ t1 ++ mid ++ t2 ++ post ≠ "" := by
  intro hc
  have hl := congrArg String.length hc
  simp only [String.length_append] at hl
  have h0 : String.length "" = 0 := rfl
  omega

/-- The placed-bid record carries a reason exactly when the coin flip
failed. -/
theorem reasonOk_attemptBidRecord (a : Auction) (b : ℚ) (now : Int)
    (rand : ℚ) : reasonOk (attemptBidRecord a b now rand) := by
  by_cases h : rand > 3 / 10
  · exact ⟨fun _ => by simp [attemptBidRecord, h],
      fun hf => by simp [attemptBidRecord, h] at hf⟩
  · refine ⟨fun ht => by simp [attemptBidRecord, h] at ht, fun _ =>
      ⟨"Outbid by another user", by simp [attemptBidRecord, h], by decide⟩⟩

/-- The rejection record always carries a nonempty reason. -/
theorem reasonOk_attemptBidRejectRecord (a : Auction) (b : ℚ) (now : Int) :
    reasonOk (attemptBidRejectRecord a b now) := by
  refine ⟨fun ht => by simp [attemptBidRejectRecord] at ht, fun _ => ⟨_, rfl, ?_⟩⟩
  exact reason_ne_empty "Bid amount ($" (toString b) ") exceeds max bid ($"
    (toString a.maxBid) ")" (by decide)

/-- The max-bid-too-low record always carries a nonempty reason. -/
theorem reasonOk_snipeFailedRecord (a : Auction) (now : Int) :
    reasonOk (snipeFailedRecord a now) := by
  refine ⟨fun ht => by simp [snipeFailedRecord] at ht, fun _ => ⟨_, rfl, ?_⟩⟩
  exact reason_ne_empty "Max bid ($" (toString a.maxBid)
    ") is lower than current bid ($" (toString a.currentBid) ")" (by decide)

/-- A sample extraction result used to instantiate theorems. -/
def sampleData : EbayAuctionData :=
  { title := "Sample item", currentBid := 3, endTime := 500000, itemId := "1",
    imageUrl := none, seller := none, bidCount := none, condition := none,
    location := none, shipping := none }

/-- A sample actively monitored auction two seconds from its end. -/
def sampleAuction : Auction :=
  { id := "a1", url := "https://www.ebay.com/itm/1", title := "Sample item",
    currentBid := 10, maxBid := 50, endTime := 2000, isActive := true,
    status := .monitoring, lastBidAmount := none, bidHistory := [],
    itemId := "1", imageUrl := none, seller := none, bidCount := none,
    condition := none, location := none, shipping := none, lastUpdated := 0 }

/-- The sample auction already past its end time. -/
def endedAuction : Auction :=
  { sampleAuction with endTime := -5 }

/-- The sample auction in a terminal state. -/
def wonAuction : Auction :=
  { sampleAuction with status := .won, isActive := false }

/-- C1: every bid the sniper places respects the user maximum.
`attemptBid` clamps the requested amount to `min(requested, maxBid)` before
recording it and appends exactly that placed record; the auto-snipe step
schedules its bid as `min(currentBid + 1, maxBid)`; hence every record
appended as a placed bid (the rejection branch is unreachable, since the
clamp already bounds the amount) has `amount ≤ maxBid`. -/
theorem placed_bids_respect_maxBid (st : AppState) (a : Auction) (b : ℚ)
    (now : Int) (rand : ℚ) :
    (attemptBid st a b now rand).bidHistory
      = st.bidHistory ++ [attemptBidRecord a b now rand] ∧
    (attemptBidRecord a b now rand).amount = min b a.maxBid ∧
    (attemptBidRecord a b now rand).amount ≤ a.maxBid ∧
    ∀ p : Auction × ℚ, (snipeStepAuction now a).fired = some p →
      p.2 = min (a.currentBid + 1) a.maxBid ∧ p.2 ≤ a.maxBid := by
  refine ⟨attemptBid_bidHistory_eq st a b now rand, rfl, min_le_right _ _, ?_⟩
  intro p hp
  rw [snipeStep_fired_eq now a p hp]
  exact ⟨rfl, min_le_right _ _⟩

/-- Witness for C1 at a concrete auction and scheduled bid. -/
theorem placed_bids_respect_maxBid_witness :
    ((sampleAuction, (11 : ℚ))).2 = min (sampleAuction.currentBid + 1) sampleAuction.maxBid ∧
    ((sampleAuction, (11 : ℚ))).2 ≤ sampleAuction.maxBid :=
  (placed_bids_respect_maxBid ⟨[], []⟩ sampleAuction 100 0 (1 / 2)).2.2.2
    (sampleAuction, 11)
    (by
      rw [snipeStep_window 0 sampleAuction rfl rfl ⟨by decide, by decide⟩]
      norm_num [sampleAuction, min_def])

/-- C2: the auto-snipe tick fires a simulated bid for an auction exactly
when it is active, monitoring, and its recomputed remaining time lies in
the hardcoded window (0, 3000] ms; an active monitoring auction whose
remaining time is not positive is instead marked lost and inactive. -/
theorem autoSnipe_fires_iff_window (now : Int) (a : Auction) :
    ((snipeStepAuction now a).fired ≠ none ↔
      a.isActive = true ∧ a.status = AuctionStatus.monitoring ∧
      0 < (calculateTimeRemaining now a.endTime).total ∧
      (calculateTimeRemaining now a.endTime).total ≤ 3000) ∧
    (a.isActive = true → a.status = AuctionStatus.monitoring →
      (calculateTimeRemaining now a.endTime).total ≤ 0 →
      snipeStepAuction now a =
        ⟨{ a with status := .lost, isActive := false }, none, none⟩) := by
  constructor
  · constructor
    · intro hf
      by_cases hact : a.isActive = true
      · by_cases hmon : a.status = AuctionStatus.monitoring
        · refine ⟨hact, hmon, ?_, ?_⟩
          · by_contra hle
            push_neg at hle
            rw [snipeStep_expired now a hact hmon hle] at hf
            exact hf rfl
          · by_contra hgt
            push_neg at hgt
            rw [snipeStep_outside now a hact hmon hgt] at hf
            exact hf rfl
        · rw [snipeStep_skip now a (Or.inr hmon)] at hf
          exact absurd rfl hf
      · rw [snipeStep_skip now a (Or.inl (by simpa using hact))] at hf
        exact absurd rfl hf
    · rintro ⟨h1, h2, h3, h4⟩
      rw [snipeStep_window now a h1 h2 ⟨h4, h3⟩]
      simp
  · exact snipeStep_expired now a

/-- Witness for C2: the sample auction two seconds out fires; the ended
one is marked lost. -/
theorem autoSnipe_fires_iff_window_witness :
    (snipeStepAuction 0 sampleAuction).fired ≠ none ∧
    snipeStepAuction 0 endedAuction =
      ⟨{ endedAuction with status := .lost, isActive := false }, none, none⟩ :=
  ⟨(autoSnipe_fires_iff_window 0 sampleAuction).1.mpr
      ⟨rfl, rfl, by decide, by decide⟩,
   (autoSnipe_fires_iff_window 0 endedAuction).2 rfl rfl (by decide)⟩

/-- C6: the outcome of a placed simulated bid is the random coin flip
alone.  The success flag of the placed record equals `rand > 0.3`, so two
`attemptBid` runs given the same draw but different auction data and
amounts record the same flag; and `attemptBid` appends exactly this
record. -/
theorem bid_outcome_random_only :
    (∀ (a : Auction) (b : ℚ) (now : Int) (rand : ℚ),
      (attemptBidRecord a b now rand).success = decide (rand > 3 / 10)) ∧
    (∀ (a1 : Auction) (b1 : ℚ) (n1 : Int) (a2 : Auction) (b2 : ℚ) (n2 : Int)
      (rand : ℚ),
      (attemptBidRecord a1 b1 n1 rand).success
        = (attemptBidRecord a2 b2 n2 rand).success) ∧
    (∀ (st : AppState) (a : Auction) (b : ℚ) (now : Int) (rand : ℚ),
      (attemptBid st a b now rand).bidHistory
        = st.bidHistory ++ [attemptBidRecord a b now rand]) :=
  ⟨fun _ _ _ _ => rfl, fun _ _ _ _ _ _ _ => rfl, attemptBid_bidHistory_eq⟩

/-- C7: a bid record carries a nonempty failure reason exactly when its
success flag is false.  This holds for the placed record, for the
(unreachable) rejection record, for the max-bid-too-low record, and hence
for everything `attemptBid` or the auto-snipe step appends. -/
theorem failure_reason_iff_failed :
    (∀ (a : Auction) (b : ℚ) (now : Int) (rand : ℚ),
      reasonOk (attemptBidRecord a b now rand)) ∧
    (∀ (a : Auction) (b : ℚ) (now : Int),
      reasonOk (attemptBidRejectRecord a b now)) ∧
    (∀ (a : Auction) (now : Int), reasonOk (snipeFailedRecord a now)) ∧
    (∀ (st : AppState) (a : Auction) (b : ℚ) (now : Int) (rand : ℚ)
      (r : BidRecord), r ∈ (attemptBid st a b now rand).bidHistory →
      r ∈ st.bidHistory ∨ reasonOk r) := by
  refine ⟨reasonOk_attemptBidRecord, reasonOk_attemptBidRejectRecord,
    reasonOk_snipeFailedRecord, ?_⟩
  intro st a b now rand r hr
  rw [attemptBid_bidHistory_eq] at hr
  rcases List.mem_append.mp hr with h | h
  · exact Or.inl h
  · rw [List.mem_singleton.mp h]
    exact Or.inr (reasonOk_attemptBidRecord a b now rand)

/-- Witness for C7 at a concrete placed record. -/
theorem failure_reason_iff_failed_witness :
    attemptBidRecord sampleAuction 100 0 (1 / 2) ∈
        (⟨[], []⟩ : AppState).bidHistory ∨
      reasonOk (attemptBidRecord sampleAuction 100 0 (1 / 2)) :=
  failure_reason_iff_failed.2.2.2 ⟨[], []⟩ sampleAuction 100 0 (1 / 2)
    (attemptBidRecord sampleAuction 100 0 (1 / 2))
    (by simp [attemptBid_bidHistory_eq])

/-- C9: the auto-snipe step leaves untouched every auction that is
inactive or not monitoring; in particular the terminal statuses won, lost
and error are absorbing under the step. -/
theorem terminal_states_absorbing (now : Int) (a : Auction) :
    (a.isActive = false ∨ a.status ≠ AuctionStatus.monitoring →
      snipeStepAuction now a = ⟨a, none, none⟩) ∧
    (a.status = .won ∨ a.status = .lost ∨ a.status = .error →
      snipeStepAuction now a = ⟨a, none, none⟩) := by
  refine ⟨snipeStep_skip now a, fun h => snipeStep_skip now a (Or.inr ?_)⟩
  rcases h with h | h | h <;> simp [h]

/-- Witness for C9 at a concrete terminal auction. -/
theorem terminal_states_absorbing_witness :
    snipeStepAuction 12345 wonAuction = ⟨wonAuction, none, none⟩ :=
  (terminal_states_absorbing 12345 wonAuction).2 (Or.inl rfl)

/-- C10: `calculateTimeRemaining` is total and never negative: an end time
not strictly in the future gives all-zero output, and otherwise the total
is the exact positive difference, minutes and seconds lie in [0, 59], and
the three fields recompose to ⌊total / 1000⌋ seconds. -/
theorem calculateTimeRemaining_correct (now endTime : Int) :
    (endTime - now ≤ 0 → calculateTimeRemaining now endTime = ⟨0, 0, 0, 0⟩) ∧
    (0 < endTime - now →
      (calculateTimeRemaining now endTime).total = endTime - now ∧
      0 < (calculateTimeRemaining now endTime).total ∧
      0 ≤ (calculateTimeRemaining now endTime).minutes ∧
      (calculateTimeRemaining now endTime).minutes ≤ 59 ∧
      0 ≤ (calculateTimeRemaining now endTime).seconds ∧
      (calculateTimeRemaining now endTime).seconds ≤ 59 ∧
      (calculateTimeRemaining now endTime).hours * 3600 +
          (calculateTimeRemaining now endTime).minutes * 60 +
          (calculateTimeRemaining now endTime).seconds =
        (calculateTimeRemaining now endTime).total / 1000) := by
  constructor
  · intro h
    simp only [calculateTimeRemaining]
    rw [if_pos h]
  · intro h
    simp only [calculateTimeRemaining]
    rw [if_neg (by omega)]
    refine ⟨rfl, h, ?_, ?_, ?_, ?_, ?_⟩ <;> simp only [] <;> omega

/-- Witness for C10 at 2h 1m 5s (7,265,000 ms) and at an elapsed end. -/
theorem calculateTimeRemaining_correct_witness :
    (calculateTimeRemaining 0 7265000).total = 7265000 - 0 ∧
    calculateTimeRemaining 7265000 0 = ⟨0, 0, 0, 0⟩ :=
  ⟨((calculateTimeRemaining_correct 0 7265000).2 (by decide)).1,
   (calculateTimeRemaining_correct 7265000 0).1 (by decide)⟩

/-- Evaluation of `parseFloat` on the literal "5": the definition reduces
to a rational expression which norm_num closes. -/
theorem parseFloat_five : parseFloat "5" = some 5 := by
  have h : parseFloat "5"
      = some (((5 : ℕ) : ℚ) + ((0 : ℕ) : ℚ) / ((10 : ℚ) ^ (0 : ℕ))) := rfl
  rw [h]
  norm_num

/-- Evaluation of `parseFloat` on the literal "42". -/
theorem parseFloat_fortytwo : parseFloat "42" = some 42 := by
  have h : parseFloat "42"
      = some (((42 : ℕ) : ℚ) + ((0 : ℕ) : ℚ) / ((10 : ℚ) ^ (0 : ℕ))) := rfl
  rw [h]
  norm_num

/-- Evaluation of `parseFloat` on the literal "2000000". -/
theorem parseFloat_2000000 : parseFloat "2000000" = some 2000000 := by
  have h : parseFloat "2000000"
      = some (((2000000 : ℕ) : ℚ) + ((0 : ℕ) : ℚ) / ((10 : ℚ) ^ (0 : ℕ))) := rfl
  rw [h]
  norm_num

/-- C8: `addAuction` is atomic with respect to the tracked list: blank
inputs, an unparsable or nonpositive max bid, a failed extraction, or a
max bid not above the extracted current bid leave the state unchanged; on
success exactly one auction is appended — monitoring, active, with empty
per-auction history and max bid above current bid — and the global bid
history is never touched. -/
theorem addAuction_atomic (st : AppState) (url mb : String)
    (ext : Except String EbayAuctionData) (now : Int) :
    (addAuction st url mb ext now).bidHistory = st.bidHistory ∧
    (jsTrim url = "" ∨ jsTrim mb = "" → addAuction st url mb ext now = st) ∧
    (parseFloat mb = none → addAuction st url mb ext now = st) ∧
    (∀ v : ℚ, parseFloat mb = some v → v ≤ 0 →
      addAuction st url mb ext now = st) ∧
    (∀ e, ext = .error e → addAuction st url mb ext now = st) ∧
    (∀ (v : ℚ) (d : EbayAuctionData), parseFloat mb = some v → ext = .ok d →
      v ≤ d.currentBid → addAuction st url mb ext now = st) ∧
    (∀ (v : ℚ) (d : EbayAuctionData), ¬(jsTrim url = "" ∨ jsTrim mb = "") →
      parseFloat mb = some v → 0 < v → ext = .ok d → d.currentBid < v →
      (addAuction st url mb ext now).auctions
          = st.auctions ++ [mkNewAuction url d v now] ∧
        (mkNewAuction url d v now).status = .monitoring ∧
        (mkNewAuction url d v now).isActive = true ∧
        (mkNewAuction url d v now).bidHistory = [] ∧
        (mkNewAuction url d v now).currentBid
          < (mkNewAuction url d v now).maxBid) := by
  refine ⟨?_, ?_, ?_, ?_, ?_, ?_, ?_⟩
  · simp only [addAuction]
    split
    · rfl
    · split
      · rfl
      · split
        · rfl
        · split
          · rfl
          · split
            · rfl
            · rfl
  · intro h
    simp only [addAuction]
    rw [if_pos h]
  · intro h
    simp only [addAuction, h]
    split <;> rfl
  · intro v hv hle
    simp only [addAuction, hv]
    split <;> rfl
  · intro e he
    subst he
    simp only [addAuction]
    split
    · rfl
    · split
      · rfl
      · split
        · rfl
        · rfl
  · intro v d hv he hle
    subst he
    simp only [addAuction, hv]
    split <;> first | rfl | (split <;> rfl)
  · intro v d hblank hv hpos he hlt
    subst he
    simp only [addAuction, hv]
    rw [if_neg hblank, if_neg (not_le.mpr hpos), if_neg (not_le.mpr hlt)]
    exact ⟨rfl, rfl, rfl, rfl, hlt⟩

/-- Witness for C8: a $5 max bid over a $3 extracted current bid appends
exactly one monitoring auction. -/
theorem addAuction_atomic_witness :
    (addAuction ⟨[], []⟩ "https://www.ebay.com/itm/1" "5"
          (.ok sampleData) 0).auctions
        = ([] : List Auction)
          ++ [mkNewAuction "https://www.ebay.com/itm/1" sampleData 5 0] ∧
      (mkNewAuction "https://www.ebay.com/itm/1" sampleData 5 0).status
        = .monitoring ∧
      (mkNewAuction "https://www.ebay.com/itm/1" sampleData 5 0).isActive
        = true ∧
      (mkNewAuction "https://www.ebay.com/itm/1" sampleData 5 0).bidHistory
        = [] ∧
      (mkNewAuction "https://www.ebay.com/itm/1" sampleData 5 0).currentBid
        < (mkNewAuction "https://www.ebay.com/itm/1" sampleData 5 0).maxBid :=
  (addAuction_atomic ⟨[], []⟩ "https://www.ebay.com/itm/1" "5"
      (.ok sampleData) 0).2.2.2.2.2.2 5 sampleData
    (by decide) parseFloat_five (by decide) rfl (by decide)

/-! Helper lemmas about the extraction service. -/

/-- An element read by `getD` at an in-range index is in the list. -/
theorem getD_mem_of_lt {α : Type} (l : List α) (n : Nat) (d : α)
    (h : n < l.length) : l.getD n d ∈ l := by
  induction l generalizing n with
  | nil => simp at h
  | cons x xs ih =>
    cases n with
    | zero => simp [List.getD]
    | succ m =>
      simp only [List.getD_cons_succ]
      exact List.mem_cons_of_mem x (ih m (by simpa using h))

/-- A pattern only contributes prices inside the validity window. -/
theorem patternPrice_valid (text : String) (pat : String → Option String)
    (p : ℚ) (h : patternPrice text pat = some p) : 0 < p ∧ p < 1000000 := by
  unfold patternPrice at h
  cases hm : pat text with
  | none =>
    simp only [hm] at h
    exact absurd h (by simp)
  | some cap =>
    simp only [hm] at h
    cases hp : parseFloat (removeCommas cap) with
    | none =>
      simp only [hp] at h
      exact absurd h (by simp)
    | some q =>
      simp only [hp] at h
      by_cases hv : isValidPrice q = true
      · rw [if_pos hv] at h
        obtain rfl := Option.some_inj.mp h
        unfold isValidPrice at hv
        exact of_decide_eq_true hv
      · rw [if_neg hv] at h
        exact absurd h (by simp)

/-- A main-loop attempt only returns prices inside the validity window. -/
theorem mainPatternPrice_valid (markdown : String)
    (pat : String → Option (Option String)) (p : ℚ)
    (h : mainPatternPrice markdown pat = .ok (some p)) :
    0 < p ∧ p < 1000000 := by
  unfold mainPatternPrice at h
  cases hm : pat markdown with
  | none =>
    simp only [hm] at h
    exact absurd h (by simp)
  | some c =>
    cases c with
    | none =>
      simp only [hm] at h
      exact absurd h (by simp)
    | some cap =>
      simp only [hm] at h
      cases hp : parseFloat (removeCommas cap) with
      | none =>
        simp only [hp] at h
        exact absurd h (by simp)
      | some q =>
        simp only [hp] at h
        by_cases hv : isValidPrice q = true
        · rw [if_pos hv] at h
          obtain rfl : q = p := by simpa using h
          unfold isValidPrice at hv
          exact of_decide_eq_true hv
        · rw [if_neg hv] at h
          exact absurd h (by simp)

/-- The only exception a main-loop attempt can raise is the TypeError. -/
theorem mainPatternPrice_error_eq (markdown : String)
    (pat : String → Option (Option String)) (e : ExtractThrow)
    (h : mainPatternPrice markdown pat = .error e) :
    e = ExtractThrow.typeError := by
  unfold mainPatternPrice at h
  cases hm : pat markdown with
  | none =>
    simp only [hm] at h
    exact absurd h (by simp)
  | some c =>
    cases c with
    | none =>
      simp only [hm] at h
      simpa using h.symm
    | some cap =>
      simp only [hm] at h
      cases hp : parseFloat (removeCommas cap) with
      | none =>
        simp only [hp] at h
        exact absurd h (by simp)
      | some q =>
        simp only [hp] at h
        split at h <;> exact absurd h (by simp)

/-- If every pattern attempt falls through, the main loop yields nothing
and raises nothing. -/
theorem tryPatterns_none (markdown : String)
    (pats : List (String → Option (Option String)))
    (h : ∀ q ∈ pats, mainPatternPrice markdown q = .ok none) :
    tryPatterns markdown pats = .ok none := by
  induction pats with
  | nil => rfl
  | cons q rest ih =>
    simp only [tryPatterns]
    rw [h q (List.mem_cons_self q rest)]
    exact ih fun r hr => h r (List.mem_cons_of_mem q hr)

/-- First-match-wins: when every earlier attempt falls through, the first
attempt yielding a valid price decides the loop. -/
theorem tryPatterns_first (markdown : String)
    (pats1 pats2 : List (String → Option (Option String)))
    (pat : String → Option (Option String)) (p : ℚ)
    (h1 : ∀ q ∈ pats1, mainPatternPrice markdown q = .ok none)
    (hp : mainPatternPrice markdown pat = .ok (some p)) :
    tryPatterns markdown (pats1 ++ pat :: pats2) = .ok (some p) := by
  induction pats1 with
  | nil =>
    simp only [List.nil_append, tryPatterns]
    rw [hp]
  | cons q rest ih =>
    simp only [List.cons_append, tryPatterns]
    rw [h1 q (List.mem_cons_self q rest)]
    exact ih fun r hr => h1 r (List.mem_cons_of_mem q hr)

/-- A crashing attempt aborts the loop: when every earlier attempt falls
through and an attempt raises, the loop raises the same exception and the
later patterns and fallbacks never run. -/
theorem tryPatterns_crash (markdown : String)
    (pats1 pats2 : List (String → Option (Option String)))
    (pat : String → Option (Option String)) (e : ExtractThrow)
    (h1 : ∀ q ∈ pats1, mainPatternPrice markdown q = .ok none)
    (hp : mainPatternPrice markdown pat = .error e) :
    tryPatterns markdown (pats1 ++ pat :: pats2) = .error e := by
  induction pats1 with
  | nil =>
    simp only [List.nil_append, tryPatterns]
    rw [hp]
  | cons q rest ih =>
    simp only [List.cons_append, tryPatterns]
    rw [h1 q (List.mem_cons_self q rest)]
    exact ih fun r hr => h1 r (List.mem_cons_of_mem q hr)

/-- Any price the main loop yields is inside the validity window. -/
theorem tryPatterns_valid (markdown : String)
    (pats : List (String → Option (Option String))) (p : ℚ)
    (h : tryPatterns markdown pats = .ok (some p)) :
    0 < p ∧ p < 1000000 := by
  induction pats with
  | nil => exact absurd h (by simp [tryPatterns])
  | cons q rest ih =>
    simp only [tryPatterns] at h
    cases hq : mainPatternPrice markdown q with
    | error e =>
      simp only [hq] at h
      exact absurd h (by simp)
    | ok o =>
      cases o with
      | some r =>
        simp only [hq] at h
        obtain rfl : r = p := by simpa using h
        exact mainPatternPrice_valid markdown q _ hq
      | none =>
        simp only [hq] at h
        exact ih h

/-- Any exception the main loop raises is the TypeError. -/
theorem tryPatterns_error_eq (markdown : String)
    (pats : List (String → Option (Option String))) (e : ExtractThrow)
    (h : tryPatterns markdown pats = .error e) :
    e = ExtractThrow.typeError := by
  induction pats with
  | nil => exact absurd h (by simp [tryPatterns])
  | cons q rest ih =>
    simp only [tryPatterns] at h
    cases hq : mainPatternPrice markdown q with
    | error e2 =>
      simp only [hq] at h
      obtain rfl : e2 = e := by simpa using h
      exact mainPatternPrice_error_eq markdown q _ hq
    | ok o =>
      cases o with
      | some r =>
        simp only [hq] at h
        exact absurd h (by simp)
      | none =>
        simp only [hq] at h
        exact ih h

/-- Prices contributed by a single fallback line lie in the window. -/
theorem linePrices_valid (linePats : List (String → Option String))
    (line : String) (p : ℚ) (h : p ∈ linePrices linePats line) :
    0 < p ∧ p < 1000000 := by
  unfold linePrices at h
  obtain ⟨pat, _, hp⟩ := List.mem_filterMap.mp h
  exact patternPrice_valid line pat p hp

/-- Every candidate the fallback scan collects lies in the window. -/
theorem collectFallbackPrices_valid (linePats : List (String → Option String)) :
    ∀ (lines : List String) (b : Bool) (p : ℚ),
      p ∈ collectFallbackPrices linePats lines b → 0 < p ∧ p < 1000000 := by
  intro lines
  induction lines with
  | nil => intro b p h; exact absurd h (by simp [collectFallbackPrices])
  | cons line rest ih =>
    intro b p h
    simp only [collectFallbackPrices] at h
    split at h
    · exact ih true p h
    · split at h
      · rw [if_neg (by simp)] at h
        rcases List.mem_append.mp h with h2 | h2
        · exact linePrices_valid linePats line p h2
        · exact ih false p h2
      · cases b with
        | true =>
          rw [if_pos rfl] at h
          exact ih true p h
        | false =>
          rw [if_neg (by simp)] at h
          rcases List.mem_append.mp h with h2 | h2
          · exact linePrices_valid linePats line p h2
          · exact ih false p h2

/-- The median the fallback stage returns is one of the candidates. -/
theorem medianPrice_mem (ps : List ℚ) (h : ps ≠ []) : medianPrice ps ∈ ps := by
  unfold medianPrice
  have hlen : (ps.insertionSort (· ≤ ·)).length = ps.length :=
    List.length_insertionSort (· ≤ ·) ps
  have hpos : 0 < ps.length := List.length_pos.mpr h
  have hmem := getD_mem_of_lt (ps.insertionSort (· ≤ ·)) (ps.length / 2) 0
    (by rw [hlen]; omega)
  exact (List.perm_insertionSort (· ≤ ·) ps).mem_iff.mp hmem

/-- With no line patterns the fallback scan collects nothing. -/
theorem collectFallbackPrices_nil :
    ∀ (lines : List String) (b : Bool),
      collectFallbackPrices [] lines b = [] := by
  intro lines
  induction lines with
  | nil => intro b; rfl
  | cons line rest ih =>
    intro b
    simp only [collectFallbackPrices, linePrices, List.filterMap_nil,
      List.nil_append]
    split
    · exact ih true
    · rw [ite_self]
      exact ih _

/-- Every valid last-resort price lies in the window. -/
theorem lastResortPrices_valid (tokens : List String) (p : ℚ)
    (h : p ∈ lastResortPrices tokens) : 0 < p ∧ p < 1000000 := by
  unfold lastResortPrices at h
  obtain ⟨tok, _, hp⟩ := List.mem_filterMap.mp h
  cases hpf : parseFloat (String.mk (tok.toList.filter
      fun c => !(c = '$' || c = ','))) with
  | none =>
    simp only [hpf] at hp
    exact absurd hp (by simp)
  | some q =>
    simp only [hpf] at hp
    by_cases hv : (0 < q ∧ q < 1000000 ∧ 1 / 100 ≤ q)
    · rw [if_pos hv] at hp
      obtain rfl := Option.some_inj.mp hp
      exact ⟨hv.1, hv.2.1⟩
    · rw [if_neg hv] at hp
      exact absurd hp (by simp)

/-- The last-resort pick, when it exists, lies in the window. -/
theorem lastResortPick_valid (tokens : List String) (p : ℚ)
    (h : lastResortPick tokens = some p) : 0 < p ∧ p < 1000000 := by
  simp only [lastResortPick] at h
  split at h
  · exact absurd h (by simp)
  · split at h
    · rename_i q hq
      obtain rfl := Option.some_inj.mp h
      have hmem := List.mem_of_find?_eq_some hq
      exact lastResortPrices_valid tokens _
        ((List.perm_insertionSort (· ≤ ·) (lastResortPrices tokens)).mem_iff.mp hmem)
    · rename_i hlen _
      obtain rfl := Option.some_inj.mp h
      have hmem := getD_mem_of_lt
        ((lastResortPrices tokens).insertionSort (· ≤ ·)) 0 0
        (by rw [List.length_insertionSort]; omega)
      exact lastResortPrices_valid tokens _
        ((List.perm_insertionSort (· ≤ ·) (lastResortPrices tokens)).mem_iff.mp hmem)

/-- The last resort yields nothing exactly when it finds no valid price. -/
theorem lastResortPick_none_iff (tokens : List String) :
    lastResortPick tokens = none ↔ lastResortPrices tokens = [] := by
  constructor
  · intro h
    simp only [lastResortPick] at h
    split at h
    · rename_i hlen
      exact List.length_eq_zero.mp hlen
    · split at h <;> exact absurd h (by simp)
  · intro h
    simp only [lastResortPick, h]
    rfl

/-- The JSON-LD stage only checks positivity of the price it returns. -/
theorem jsonLdPrice_pos (jl : List JsonLdItem) (p : ℚ)
    (h : jsonLdPrice jl = some p) : 0 < p := by
  induction jl with
  | nil => exact absurd h (by simp [jsonLdPrice])
  | cons item rest ih =>
    simp only [jsonLdPrice] at h
    split at h
    · split at h
      · split at h
        · rename_i hpos
          obtain rfl := Option.some_inj.mp h
          exact hpos
        · exact ih h
      · exact ih h
    · exact ih h

/-- Evaluation of `parseFloat` on the literal "50". -/
theorem parseFloat_fifty : parseFloat "50" = some 50 := by
  have h : parseFloat "50"
      = some (((50 : ℕ) : ℚ) + ((0 : ℕ) : ℚ) / ((10 : ℚ) ^ (0 : ℕ))) := rfl
  rw [h]
  norm_num

/-- Main-loop matcher that never matches. -/
def patNoneG : String → Option (Option String) := fun _ => none

/-- Main-loop matcher whose `match[1]` is the whole text (a non-global
pattern whose capture group spans the match). -/
def patAllG : String → Option (Option String) := fun s => some (some s)

/-- The final global-flagged pattern `/\$([0-9,]+\.?[0-9]*)/g` on a text
containing exactly one `$`-amount: the match array is non-null but
`match[1]` is `undefined`. -/
def gPatSingle : String → Option (Option String) := fun _ => some none

/-- The per-line pattern `/\$([0-9,]+\.?[0-9]*)/i` on the line
"Total $42": its first match binds group 1 to "42". -/
def patCap42 : String → Option String := fun _ => some "42"

/-- Comma removal is the identity on "42". -/
theorem removeCommas_42 : removeCommas "42" = "42" := rfl

/-- The whole-text matcher on the text "42" yields the valid price 42. -/
theorem mainPatternPrice_patAllG_42 :
    mainPatternPrice "42" patAllG = .ok (some 42) := by
  simp only [mainPatternPrice, patAllG, removeCommas_42, parseFloat_fortytwo]
  rw [if_pos (by decide : isValidPrice 42 = true)]

/-- The line scan on the single line "Total $42" collects exactly the
valid candidate 42. -/
theorem collect_total42 :
    collectFallbackPrices [patCap42] (splitLines "Total $42") false
      = [42] := by
  have hs : splitLines "Total $42" = ["Total $42"] := rfl
  have hsim : similarLine (jsToLower "Total $42") = false := by decide
  have hres : resetLine (jsToLower "Total $42") = false := by decide
  rw [hs]
  simp only [collectFallbackPrices, hsim, hres, Bool.false_eq_true,
    if_false, linePrices, patternPrice, patCap42, removeCommas_42,
    parseFloat_fortytwo, List.filterMap, List.append_nil]
  decide

/-- A JSON-LD product item with a valid price of 50. -/
def fiftyJsonLd : List JsonLdItem := [⟨"Product", some "50"⟩]

/-- The JSON-LD stage accepts the price 50. -/
theorem jsonLdPrice_fifty : jsonLdPrice fiftyJsonLd = some 50 := by
  simp only [jsonLdPrice, fiftyJsonLd, Option.getD_some, parseFloat_fifty]
  decide

/-- A JSON-LD product item with a seven-figure price. -/
def bigJsonLd : List JsonLdItem := [⟨"Product", some "2000000"⟩]

/-- The JSON-LD stage accepts the price 2,000,000 — it has no upper
bound. -/
theorem jsonLdPrice_big : jsonLdPrice bigJsonLd = some 2000000 := by
  simp only [jsonLdPrice, bigJsonLd, Option.getD_some, parseFloat_2000000]
  decide

/-- C3 (amended): when the JSON-LD structured data yields no price, the
pattern stage of `extractCurrentBid` is first-match-wins in the listed
priority order over the attempts that complete; when every pattern
attempt falls through and the line scan finds candidates, the median of
the candidates is returned; and a pattern attempt whose `match[1]` is
`undefined` (the global-flagged final pattern matching exactly once)
aborts the extraction with a TypeError before the line scan can run. -/
theorem extract_first_match_median :
    (∀ (jsonLd : List JsonLdItem)
        (pats1 pats2 : List (String → Option (Option String)))
        (pat : String → Option (Option String))
        (linePats : List (String → Option String))
        (allTokens : String → List String) (markdown : String) (p : ℚ),
      jsonLdPrice jsonLd = none →
      (∀ q ∈ pats1, mainPatternPrice markdown q = .ok none) →
      mainPatternPrice markdown pat = .ok (some p) →
      extractCurrentBid (pats1 ++ pat :: pats2) linePats allTokens jsonLd
        markdown = .ok p) ∧
    (∀ (jsonLd : List JsonLdItem)
        (pats : List (String → Option (Option String)))
        (linePats : List (String → Option String))
        (allTokens : String → List String) (markdown : String),
      jsonLdPrice jsonLd = none →
      (∀ q ∈ pats, mainPatternPrice markdown q = .ok none) →
      collectFallbackPrices linePats (splitLines markdown) false ≠ [] →
      extractCurrentBid pats linePats allTokens jsonLd markdown
        = .ok (medianPrice
            (collectFallbackPrices linePats (splitLines markdown) false))) ∧
    (∀ (jsonLd : List JsonLdItem)
        (pats1 pats2 : List (String → Option (Option String)))
        (pat : String → Option (Option String))
        (linePats : List (String → Option String))
        (allTokens : String → List String) (markdown : String),
      jsonLdPrice jsonLd = none →
      (∀ q ∈ pats1, mainPatternPrice markdown q = .ok none) →
      mainPatternPrice markdown pat = .error .typeError →
      extractCurrentBid (pats1 ++ pat :: pats2) linePats allTokens jsonLd
        markdown = .error .typeError) := by
  refine ⟨?_, ?_, ?_⟩
  · intro jsonLd pats1 pats2 pat linePats allTokens markdown p hjl h1 hp
    simp only [extractCurrentBid, hjl,
      tryPatterns_first markdown pats1 pats2 pat p h1 hp]
  · intro jsonLd pats linePats allTokens markdown hjl h1 hne
    simp only [extractCurrentBid, hjl, tryPatterns_none markdown pats h1]
    rw [if_pos (List.length_pos.mpr hne)]
  · intro jsonLd pats1 pats2 pat linePats allTokens markdown hjl h1 hp
    simp only [extractCurrentBid, hjl,
      tryPatterns_crash markdown pats1 pats2 pat ExtractThrow.typeError h1 hp]

/-- Witness for C3: with a silent first pattern and a whole-text second
pattern, the text "42" extracts to 42. -/
theorem extract_first_match_median_witness :
    extractCurrentBid ([patNoneG] ++ patAllG :: []) [] (fun _ => []) [] "42"
      = .ok 42 :=
  extract_first_match_median.1 [] [patNoneG] [] patAllG [] (fun _ => [])
    "42" 42 rfl
    (fun q hq => by rw [List.mem_singleton.mp hq]; rfl)
    mainPatternPrice_patAllG_42

/-- Counterexample to C3 as stated, two independent ways: a valid JSON-LD
price preempts a first pattern yielding the valid price 42; and on a text
with exactly one `$`-amount the global-flagged final pattern leaves
`match[1]` undefined, so extraction crashes with a TypeError before the
line scan, which would have collected the valid candidate 42 — no median
is returned. -/
theorem extract_first_match_median_cex :
    mainPatternPrice "42" patAllG = .ok (some 42) ∧
    extractCurrentBid [patAllG] [] (fun _ => []) fiftyJsonLd "42" = .ok 50 ∧
    (50 : ℚ) ≠ 42 ∧
    extractCurrentBid [gPatSingle] [patCap42] (fun _ => []) [] "Total $42"
      = .error .typeError ∧
    collectFallbackPrices [patCap42] (splitLines "Total $42") false
      = [42] := by
  refine ⟨mainPatternPrice_patAllG_42, ?_, by decide, rfl, collect_total42⟩
  simp only [extractCurrentBid, jsonLdPrice_fifty]

/-- C5 (amended): prices returned from the regex patterns, the line-scan
median and the last-resort scan lie in the window 0 < p < 1,000,000,
while the JSON-LD stage checks only p > 0; when JSON-LD yields nothing
the extraction raises a TypeError exactly when the pattern loop does (an
attempt with an undefined `match[1]` before any valid price), and it
throws the deliberate extraction error exactly when the pattern loop
completes empty, the line scan collects nothing, and the last resort
finds nothing. -/
theorem extractCurrentBid_window
    (pats : List (String → Option (Option String)))
    (linePats : List (String → Option String))
    (allTokens : String → List String) (jsonLd : List JsonLdItem)
    (markdown : String) :
    (∀ p, jsonLdPrice jsonLd = some p → 0 < p) ∧
    (jsonLdPrice jsonLd = none → ∀ p,
      extractCurrentBid pats linePats allTokens jsonLd markdown = .ok p →
      0 < p ∧ p < 1000000) ∧
    (extractCurrentBid pats linePats allTokens jsonLd markdown
        = .error .noPriceFound ↔
      jsonLdPrice jsonLd = none ∧ tryPatterns markdown pats = .ok none ∧
      collectFallbackPrices linePats (splitLines markdown) false = [] ∧
      lastResortPrices (allTokens markdown) = []) ∧
    (extractCurrentBid pats linePats allTokens jsonLd markdown
        = .error .typeError ↔
      jsonLdPrice jsonLd = none ∧
      tryPatterns markdown pats = .error .typeError) := by
  refine ⟨fun p h => jsonLdPrice_pos jsonLd p h, ?_, ?_, ?_⟩
  · intro hjl p h
    simp only [extractCurrentBid, hjl] at h
    cases htp : tryPatterns markdown pats with
    | error e =>
      simp only [htp] at h
      exact absurd h (by simp)
    | ok o =>
      cases o with
      | some q =>
        simp only [htp] at h
        obtain rfl : q = p := by simpa using h
        exact tryPatterns_valid markdown pats _ htp
      | none =>
        simp only [htp] at h
        split at h
        · obtain rfl : medianPrice (collectFallbackPrices linePats
              (splitLines markdown) false) = p := by simpa using h
          rename_i hlen
          have hne : collectFallbackPrices linePats (splitLines markdown)
              false ≠ [] := by
            intro hc
            rw [hc] at hlen
            simp at hlen
          exact collectFallbackPrices_valid linePats _ false _
            (medianPrice_mem _ hne)
        · cases hlr : lastResortPick (allTokens markdown) with
          | some q =>
            simp only [hlr] at h
            obtain rfl : q = p := by simpa using h
            exact lastResortPick_valid _ _ hlr
          | none =>
            simp only [hlr] at h
            exact absurd h (by simp)
  · constructor
    · intro h
      cases hjl : jsonLdPrice jsonLd with
      | some q =>
        simp only [extractCurrentBid, hjl] at h
        exact absurd h (by simp)
      | none =>
        simp only [extractCurrentBid, hjl] at h
        cases htp : tryPatterns markdown pats with
        | error e =>
          simp only [htp] at h
          obtain rfl : e = ExtractThrow.noPriceFound := by simpa using h
          exact absurd (tryPatterns_error_eq markdown pats _ htp)
            (by decide)
        | ok o =>
          cases o with
          | some q =>
            simp only [htp] at h
            exact absurd h (by simp)
          | none =>
            simp only [htp] at h
            split at h
            · exact absurd h (by simp)
            · rename_i hlen
              cases hlr : lastResortPick (allTokens markdown) with
              | some q =>
                simp only [hlr] at h
                exact absurd h (by simp)
              | none =>
                refine ⟨rfl, rfl, ?_, (lastResortPick_none_iff _).mp hlr⟩
                have hz : (collectFallbackPrices linePats
                    (splitLines markdown) false).length = 0 := by omega
                exact List.length_eq_zero.mp hz
    · rintro ⟨h1, h2, h3, h4⟩
      simp only [extractCurrentBid, h1, h2, h3,
        (lastResortPick_none_iff (allTokens markdown)).mpr h4]
      rw [if_neg (by simp)]
  · constructor
    · intro h
      cases hjl : jsonLdPrice jsonLd with
      | some q =>
        simp only [extractCurrentBid, hjl] at h
        exact absurd h (by simp)
      | none =>
        refine ⟨rfl, ?_⟩
        simp only [extractCurrentBid, hjl] at h
        cases htp : tryPatterns markdown pats with
        | error e =>
          simp only [htp] at h
          obtain rfl : e = ExtractThrow.typeError := by simpa using h
          rfl
        | ok o =>
          cases o with
          | some q =>
            simp only [htp] at h
            exact absurd h (by simp)
          | none =>
            simp only [htp] at h
            split at h
            · exact absurd h (by simp)
            · cases hlr : lastResortPick (allTokens markdown) with
              | some q =>
                simp only [hlr] at h
                exact absurd h (by simp)
              | none =>
                simp only [hlr] at h
                exact absurd h (by simp)
    · rintro ⟨h1, h2⟩
      simp only [extractCurrentBid, h1, h2]

/-- Witness for C5: with no stage producing anything, extraction throws
the deliberate error. -/
theorem extractCurrentBid_window_witness :
    extractCurrentBid [] [] (fun _ => []) [] "" = .error .noPriceFound :=
  (extractCurrentBid_window [] [] (fun _ => []) [] "").2.2.1.mpr
    ⟨rfl, rfl, collectFallbackPrices_nil (splitLines "") false, rfl⟩

/-- Counterexample to C5 as stated: structured data carrying price
2,000,000 makes extraction return a value outside the plausible window. -/
theorem extractCurrentBid_window_cex :
    extractCurrentBid [] [] (fun _ => []) bigJsonLd "" = .ok 2000000 ∧
    ¬((2000000 : ℚ) < 1000000) := by
  constructor
  · simp only [extractCurrentBid, jsonLdPrice_big]
  · decide

/-- The alternative-URL loop yields nothing exactly when every attempt
fails its acceptance test. -/
theorem tryAlternatives_none_iff (alts : List (Except String EbayAuctionData)) :
    tryAlternatives alts = none ↔ ∀ att ∈ alts, scrapeSuccess att = none := by
  induction alts with
  | nil => simp [tryAlternatives]
  | cons att rest ih =>
    simp only [tryAlternatives]
    cases h : scrapeSuccess att with
    | some d =>
      constructor
      · intro hc
        simp only [h] at hc
        exact absurd hc (by simp)
      · intro hall
        exact absurd (hall att (List.mem_cons_self att rest)) (by simp [h])
    | none =>
      simp only [h, ih]
      constructor
      · intro hrest q hq
        rcases List.mem_cons.mp hq with rfl | hq2
        · exact h
        · exact hrest q hq2
      · intro hall q hq
        exact hall q (List.mem_cons_of_mem att hq)

/-- C4 (amended): the fetch strategies run in the fixed order API call,
direct scrape, alternative-URL scrapes, proxy fetch; every failed attempt
is caught and the next strategy tried; the API and proxy strategies
succeed on any non-null data — with no `currentBid > 0` condition at this
level — while the scrape strategies additionally require a positive
current bid and a non-demo title; the final error is thrown exactly when
every strategy has failed. -/
theorem extract_fallback_chain (url : String) (env : ExtractEnv) :
    (isValidEbayUrl url = false →
      extractAuctionData url env
        = .error "Please enter a valid eBay auction URL") ∧
    (isValidEbayUrl url = true → ∀ d, apiResult env = some d →
      extractAuctionData url env = .ok d) ∧
    (isValidEbayUrl url = true → ∀ d, apiResult env = none →
      scrapeSuccess env.directAttempt = some d →
      extractAuctionData url env = .ok d) ∧
    (isValidEbayUrl url = true → ∀ d, apiResult env = none →
      scrapeSuccess env.directAttempt = none →
      tryAlternatives env.altAttempts = some d →
      extractAuctionData url env = .ok d) ∧
    (isValidEbayUrl url = true → ∀ d, apiResult env = none →
      scrapeSuccess env.directAttempt = none →
      tryAlternatives env.altAttempts = none →
      proxyResult env = some d →
      extractAuctionData url env = .ok d) ∧
    (isValidEbayUrl url = true →
      ((∃ e, extractAuctionData url env = .error e) ↔
        apiResult env = none ∧ scrapeSuccess env.directAttempt = none ∧
        (∀ att ∈ env.altAttempts, scrapeSuccess att = none) ∧
        proxyResult env = none)) := by
  refine ⟨?_, ?_, ?_, ?_, ?_, ?_⟩
  · intro hbad
    simp only [extractAuctionData, hbad]
    rw [if_pos trivial]
  · intro hok d h1
    simp only [extractAuctionData, h1]
    rw [if_neg (by simp [hok])]
  · intro hok d h1 h2
    simp only [extractAuctionData, h1, h2]
    rw [if_neg (by simp [hok])]
  · intro hok d h1 h2 h3
    simp only [extractAuctionData, h1, h2, h3]
    rw [if_neg (by simp [hok])]
  · intro hok d h1 h2 h3 h4
    simp only [extractAuctionData, h1, h2, h3, h4]
    rw [if_neg (by simp [hok])]
  · intro hok
    constructor
    · rintro ⟨e, he⟩
      cases h1 : apiResult env with
      | some d =>
        simp only [extractAuctionData, h1] at he
        rw [if_neg (by simp [hok])] at he
        exact Except.noConfusion he
      | none =>
        cases h2 : scrapeSuccess env.directAttempt with
        | some d =>
          simp only [extractAuctionData, h1, h2] at he
          rw [if_neg (by simp [hok])] at he
          exact Except.noConfusion he
        | none =>
          cases h3 : tryAlternatives env.altAttempts with
          | some d =>
            simp only [extractAuctionData, h1, h2, h3] at he
            rw [if_neg (by simp [hok])] at he
            exact Except.noConfusion he
          | none =>
            cases h4 : proxyResult env with
            | some d =>
              simp only [extractAuctionData, h1, h2, h3, h4] at he
              rw [if_neg (by simp [hok])] at he
              exact Except.noConfusion he
            | none =>
              exact ⟨rfl, rfl, (tryAlternatives_none_iff _).mp h3, rfl⟩
    · rintro ⟨h1, h2, h3, h4⟩
      refine ⟨"Unable to fetch real auction data from eBay.", ?_⟩
      simp only [extractAuctionData, h1, h2,
        (tryAlternatives_none_iff env.altAttempts).mpr h3, h4]
      rw [if_neg (by simp [hok])]

/-- An extraction result whose current bid is zero, as the eBay API
helper can return (`parseFloat(item.CurrentPrice?.Value || ... || '0')`). -/
def zeroBidData : EbayAuctionData :=
  { title := "Item A", currentBid := 0, endTime := 0, itemId := "1",
    imageUrl := none, seller := none, bidCount := none, condition := none,
    location := none, shipping := none }

/-- A scrape result with a positive current bid. -/
def fiveBidData : EbayAuctionData :=
  { zeroBidData with title := "Item B", currentBid := 5 }

/-- Strategy outcomes where the API yields zero-bid data while the direct
scrape would yield an acceptable result. -/
def envCex : ExtractEnv :=
  { apiAttempt := .ok (some zeroBidData)
    directAttempt := .ok fiveBidData
    altAttempts := []
    proxyAttempt := .ok none }

/-- Counterexample to C4 as stated: the chain returns the API strategy's
data even though its current bid is zero, while the following strategy
would have yielded data with a positive current bid. -/
theorem extract_fallback_chain_cex :
    extractAuctionData "https://www.ebay.com/itm/1" envCex = .ok zeroBidData ∧
    ¬(0 < zeroBidData.currentBid) ∧
    scrapeSuccess envCex.directAttempt = some fiveBidData := by
  refine ⟨rfl, by decide, rfl⟩

/-- Witness for C4: with every strategy failing, extraction throws. -/
theorem extract_fallback_chain_witness :
    ∃ e, extractAuctionData "https://www.ebay.com/itm/1"
      ⟨.error "api down", .error "blocked", [.error "alt blocked"],
        .ok none⟩ = Except.error e :=
  ((extract_fallback_chain "https://www.ebay.com/itm/1"
      ⟨.error "api down", .error "blocked", [.error "alt blocked"],
        .ok none⟩).2.2.2.2.2 (by decide)).mpr
    ⟨rfl, rfl, fun att hatt => by
      rw [List.mem_singleton.mp hatt]; rfl, rfl⟩
